import Mathlib

/-!
# Verification of the timetable-import engine (`src/utils/excelParser.ts`)

A shallow embedding of the `ExcelParser` class: JS strings are modelled as
`String`/`List Char`, the sparse cell grid as a function
`Nat → Nat → Option String` (a cell is `some v` exactly when the worksheet
has the address and its value `cell.v` is truthy; `v` is the result of
`cell.v.toString()`), JS numbers as `Nat` (all quantities involved are
non-negative integers), `null` as `none`, and a thrown exception as
`Except.error`.  Each regular expression of the source is implemented as a
dedicated matching function whose backtracking behaviour is spelled out to
agree with the JS engine (leftmost match, greedy/lazy quantifiers) on all
inputs; each is annotated with the regex it embeds.

`uuidv4()` is an external random generator; it is modelled by an explicit
supply `uuid : Nat → String`, the n-th call of a run returning `uuid n`.
-/

namespace ExcelParser

/-! ## JS string primitives -/

/-- JS whitespace (`\s`) restricted to the ASCII whitespace characters
(space, tab, newline, carriage return, vertical tab, form feed); the inputs
of interest contain no exotic Unicode whitespace. -/
def wsChar (c : Char) : Bool :=
  c = ' ' || c = '\t' || c = '\n' || c = '\r' || c.toNat = 11 || c.toNat = 12

/-- JS `String.prototype.trim` on a character list. -/
def trimList (cs : List Char) : List Char :=
  ((cs.dropWhile (wsChar ·)).reverse.dropWhile (wsChar ·)).reverse

/-- Right-trim only (the effect of `.replace(/^(.*?)\s*$/, '$1')`). -/
def rtrimList (cs : List Char) : List Char :=
  (cs.reverse.dropWhile (wsChar ·)).reverse

/-- JS `String.prototype.trim`. -/
def jsTrim (s : String) : String := String.mk (trimList s.toList)

/-- JS `String.prototype.toLowerCase` (ASCII; the engine only compares ASCII
keywords). -/
def jsLower (s : String) : String := String.mk (s.toList.map Char.toLower)

/-- JS `split(sep)` for a one-character separator: every piece between
separators, empty pieces included (`"a\n\nb"` → `["a", "", "b"]`,
`""` → `[""]`). -/
def splitChar (sep : Char) (s : String) : List String :=
  (s.toList.foldr
    (fun c (acc : List (List Char)) =>
      if c = sep then [] :: acc
      else match acc with
        | h :: t => (c :: h) :: t
        | [] => [[c]])
    [[]]).map String.mk

/-- The replacement `.replace(/\s+/g, ' ')`: every maximal whitespace run becomes one space. -/
def collapseWS (cs : List Char) : List Char :=
  (cs.foldl
    (fun (acc : List Char × Bool) c =>
      if wsChar c then (if acc.2 then acc else (' ' :: acc.1, true))
      else (c :: acc.1, false))
    ([], false)).1.reverse

/-- Does `nee` occur as a contiguous sublist of the argument? -/
def containsSubList (nee : List Char) : List Char → Bool
  | [] => nee.isEmpty
  | c :: cs => nee.isPrefixOf (c :: cs) || containsSubList nee cs

/-- JS `String.prototype.includes`: substring containment. -/
def containsSub (hay nee : String) : Bool := containsSubList nee.toList hay.toList

/-- The maximal runs of characters not satisfying `p` (the non-empty tokens
of a JS `split` on the separator class `p`, after dropping empty pieces). -/
def tokensBy (p : Char → Bool) (cs : List Char) : List (List Char) :=
  let r := cs.foldr
    (fun c (acc : List (List Char) × List Char) =>
      if p c then (if acc.2.isEmpty then acc else (acc.2 :: acc.1, [])) else (acc.1, c :: acc.2))
    ([], [])
  if r.2.isEmpty then r.1 else r.2 :: r.1

/-- Index of the last occurrence of `ch` (JS `lastIndexOf`, `none` for −1). -/
def lastIdxOf (cs : List Char) (ch : Char) : Option Nat :=
  (cs.foldl
    (fun (acc : Option Nat × Nat) c =>
      (if c = ch then some acc.2 else acc.1, acc.2 + 1))
    (none, 0)).1

/-- Decimal value of a digit list (the digits already validated). -/
def parseDigits (cs : List Char) : Nat :=
  cs.foldl (fun a c => a * 10 + (c.toNat - '0'.toNat)) 0

/-- JS `parseInt` restricted to the captured groups it is applied to (a group
never carries sign or leading whitespace here): the leading digit run's value,
`none` for `NaN` when there is no leading digit. -/
def jsParseInt (cs : List Char) : Option Nat :=
  let run := cs.takeWhile (·.isDigit)
  if run.isEmpty then none else some (parseDigits run)

/-- JS `n.toString().padStart(2, '0')`. -/
def pad2 (n : Nat) : String := (if n < 10 then "0" else "") ++ Nat.repr n

/-- Inclusive integer interval `[a, b]` (empty when `b < a`). -/
def interval (a b : Nat) : List Nat := List.range' a (b + 1 - a)

/-! ## Data model (`src/types`, as used by the parser) -/

/-- The ordinal confidence levels. -/
inductive Conf | low | medium | high
deriving Repr, DecidableEq

/-- Result of parsing one line of a cell (`ParsedCell` in `src/types`). -/
structure ParsedCell where
  subject_name : String
  session_type : String
  room_or_code : String
  lecturer : String
  groups : List String
  raw_text : String
  confidence : Conf
deriving Repr, DecidableEq

/-- One extracted session. `attendance_marked` is `null` at parse time, so it
is modelled as `Option String` and always `none` here. -/
structure Session where
  id : String
  day : String
  start_time : String
  duration_slots : Nat
  subject_name : String
  session_type : String
  room : String
  lecturer : String
  groups : List String
  notes : String
  attendance_marked : Option String
deriving Repr, DecidableEq

/-- A diagnostic for a cell the parser discarded (1-based coordinates). -/
structure UnparsedCell where
  row : Nat
  col : Nat
  content : String
deriving Repr, DecidableEq

structure Metadata where
  totalCells : Nat
  parsedCells : Nat
  confidence : Conf
deriving Repr, DecidableEq

/-- The sole output artifact. -/
structure ImportPreview where
  sessions : List Session
  unparsedCells : List UnparsedCell
  metadata : Metadata
deriving Repr, DecidableEq

/-- A worksheet: its decoded `!ref` range and the sparse grid.
`cell r c = some v` models "the address is present and `cell.v` is truthy",
with `v` the text `cell.v.toString()`. -/
structure Sheet where
  startRow : Nat
  startCol : Nat
  endRow : Nat
  endCol : Nat
  cell : Nat → Nat → Option String

/-- The source's `private static readonly DAYS`. -/
def DAYS : List String :=
  ["Monday", "Tuesday", "Wednesday", "Thursday", "Friday", "Saturday", "Sunday"]

/-! ## `normalizeTime`

The four `TIME_PATTERNS`, in source order:
1. `/^(\d{1,2}):(\d{2})$/`
2. `/^(\d{1,2})\.(\d{2})$/`
3. `/^(\d{1,2}):(\d{2})\s*(AM|PM)$/i`
4. `/^(\d{1,2})\s*(AM|PM)$/i`

Each matcher returns the captured groups as character lists, in the JS
`match` slots: slot 1 is always the hour digits; for patterns 1–3 slot 2 is
the minute digits, for pattern 4 slot 2 is the `AM`/`PM` text itself; slot 3
is populated only by pattern 3.  The matchers are deterministic because each
backtracking branch of these anchored patterns fails (a shortened greedy
digit run faces a digit where `:`/`.`/letter is required). -/

/-- The leading digit run provided it has length 1 or 2 (`\d{1,2}` anchored
before a non-digit); `none` otherwise. -/
def digits12 (cs : List Char) : Option (List Char × List Char) :=
  let run := cs.takeWhile (·.isDigit)
  if run.length = 0 || run.length > 2 then none else some (run, cs.drop run.length)

/-- Exactly two digits and the rest. -/
def digits2 (cs : List Char) : Option (List Char × List Char) :=
  match cs with
  | a :: b :: rest => if a.isDigit && b.isDigit then some ([a, b], rest) else none
  | _ => none

/-- Matches `(AM|PM)` case-insensitively at the head, returning the original-case
two characters and the rest. -/
def ampmAt (cs : List Char) : Option (List Char × List Char) :=
  match cs with
  | a :: m :: rest =>
    if (a.toLower = 'a' || a.toLower = 'p') && m.toLower = 'm' then some ([a, m], rest) else none
  | _ => none

/-- Pattern 1, `/^(\d{1,2}):(\d{2})$/`. -/
def matchP1 (cs : List Char) : Option (List Char × List Char) := do
  let (h, r1) ← digits12 cs
  match r1 with
  | ':' :: r2 =>
    let (m, r3) ← digits2 r2
    if r3.isEmpty then some (h, m) else none
  | _ => none

/-- Pattern 2, `/^(\d{1,2})\.(\d{2})$/`. -/
def matchP2 (cs : List Char) : Option (List Char × List Char) := do
  let (h, r1) ← digits12 cs
  match r1 with
  | '.' :: r2 =>
    let (m, r3) ← digits2 r2
    if r3.isEmpty then some (h, m) else none
  | _ => none

/-- Pattern 3, `/^(\d{1,2}):(\d{2})\s*(AM|PM)$/i`. -/
def matchP3 (cs : List Char) : Option (List Char × List Char × List Char) := do
  let (h, r1) ← digits12 cs
  match r1 with
  | ':' :: r2 =>
    let (m, r3) ← digits2 r2
    let (ap, r4) ← ampmAt (r3.dropWhile (wsChar ·))
    if r4.isEmpty then some (h, m, ap) else none
  | _ => none

/-- Pattern 4, `/^(\d{1,2})\s*(AM|PM)$/i`. -/
def matchP4 (cs : List Char) : Option (List Char × List Char) := do
  let (h, r1) ← digits12 cs
  let (ap, r2) ← ampmAt (r1.dropWhile (wsChar ·))
  if r2.isEmpty then some (h, ap) else none

/-- The `for (const pattern of this.TIME_PATTERNS)` loop: first matching
pattern wins; the result carries the JS `match` slots 1, 2 and 3. -/
def tryTimePatterns (cs : List Char) : Option (List Char × List Char × Option (List Char)) :=
  match matchP1 cs with
  | some (h, m) => some (h, m, none)
  | none =>
  match matchP2 cs with
  | some (h, m) => some (h, m, none)
  | none =>
  match matchP3 cs with
  | some (h, m, ap) => some (h, m, some ap)
  | none =>
  match matchP4 cs with
  | some (h, ap) => some (h, ap, none)
  | none => none

/-- The cleaning step of `normalizeTime`:
`timeStr.toString().trim().replace(/\s+/g, ' ').replace(/[^\d:.\sAPM]/gi, '')`. -/
def cleanTime (s : String) : List Char :=
  (collapseWS (trimList s.toList)).filter
    (fun c => c.isDigit || c = ':' || c = '.' || wsChar c ||
      c.toLower = 'a' || c.toLower = 'p' || c.toLower = 'm')

/-- The shared loop body of `normalizeTime` after a pattern match: the
source computes `hours = parseInt(match[1])`,
`minutes = match[2] ? parseInt(match[2]) : 0` (`match[2]` is never the empty
string here, so the `: 0` arm is dead; for pattern 4 `match[2]` is the
`AM`/`PM` text and `parseInt` yields `NaN`, modelled by `none`), and
`ampm = match[3]?.toUpperCase()`.  `NaN` minutes render as the three
characters `NaN` through `toString().padStart(2, '0')`. -/
def applyTimeMatch (m1 m2 : List Char) (m3 : Option (List Char)) : String :=
  let hours0 := (jsParseInt m1).getD 0
  let minutes : Option Nat := jsParseInt m2
  let ampm : Option (List Char) := m3.map (·.map Char.toUpper)
  let hours1 := if ampm = some ['P', 'M'] && hours0 ≠ 12 then hours0 + 12 else hours0
  let hours2 := if ampm = some ['A', 'M'] && hours1 = 12 then 0 else hours1
  pad2 hours2 ++ ":" ++ (match minutes with | some m => pad2 m | none => "NaN")

/-- The source's `private static normalizeTime(timeStr: string): string | null`. -/
def normalizeTime (timeStr : String) : Option String :=
  let cs := cleanTime timeStr
  match tryTimePatterns cs with
  | some (m1, m2, m3) => some (applyTimeMatch m1 m2 m3)
  | none =>
    -- fallback `cleaned.match(/^(\d{1,2})$/)`
    let run := cs.takeWhile (·.isDigit)
    if run.length ≠ 0 && run.length ≤ 2 && cs.drop run.length = [] then
      let hours := parseDigits run
      if hours ≤ 23 then some (pad2 hours ++ ":00") else none
    else none

/-! ## `parseSessionLine` (the cell grammar)

Four destructive extraction steps over a shrinking line, in source order.
Each JS regex is implemented as a leftmost-match search; backtracking
behaviour is reproduced where the pattern admits it (noted per matcher). -/

/-- Step 1 matcher `/\(([^)]+)\)\s*$/` tried at one position: the head must
be `(`, then a non-empty maximal run of non-`)` characters (greedy `[^)]+`
cannot backtrack: a shorter run would face a non-`)` where `)` is required),
then `)`, then only whitespace to the end.  Returns the captured group. -/
def groupsMatchAt : List Char → Option (List Char)
  | '(' :: rest =>
    let inner := rest.takeWhile (· ≠ ')')
    if inner.isEmpty then none
    else
      match rest.drop inner.length with
      | ')' :: tail => if tail.all (wsChar ·) then some inner else none
      | _ => none
  | _ => none

/-- Leftmost match of `/\(([^)]+)\)\s*$/`. -/
def findGroups : List Char → Option (List Char)
  | [] => none
  | c :: cs =>
    match groupsMatchAt (c :: cs) with
    | some g => some g
    | none => findGroups cs

/-- Step 2, the tail `(?:\s*:\s*)?$` of the lecturer pattern: the remainder
is empty, or whitespace, one `:`, and whitespace to the end. -/
def lectTailOk (t : List Char) : Bool :=
  t.isEmpty ||
    (match t.dropWhile (wsChar ·) with
     | ':' :: u => u.all (wsChar ·)
     | _ => false)

/-- A character the lazy group `[^:()]+?` may consume. -/
def lectAllowed (c : Char) : Bool := !(c = ':' || c = '(' || c = ')')

/-- The lazy group `([^:()]+?)` grown from shortest: the first non-empty
allowed prefix whose remainder satisfies `lectTailOk`. -/
def lectTryV : List Char → Option (List Char)
  | [] => none
  | c :: cs =>
    if !lectAllowed c then none
    else if lectTailOk cs then some [c]
    else (lectTryV cs).map (c :: ·)

/-- The greedy `\s*` after the colon, backtracking from the maximal
whitespace run down to the empty one (`w` spaces consumed). -/
def lectWLoop (u : List Char) : Nat → Option (List Char)
  | 0 => lectTryV u
  | w + 1 =>
    match lectTryV (u.drop (w + 1)) with
    | some g => some g
    | none => lectWLoop u w

/-- The lecturer pattern `/:\s*([^:()]+?)(?:\s*:\s*)?$/` anchored at a `:`
already consumed:
`u` is the text after that colon. -/
def lectAtColon (u : List Char) : Option (List Char) :=
  lectWLoop u (u.takeWhile (wsChar ·)).length

/-- Leftmost match of the lecturer pattern: the earliest `:` at which
`lectAtColon` succeeds; returns the captured group. -/
def findLect : List Char → Option (List Char)
  | [] => none
  | c :: cs =>
    if c = ':' then
      match lectAtColon cs with
      | some g => some g
      | none => findLect cs
    else findLect cs

/-- The replacement `.replace(/^(Dr\.|Mr\.|Ms\.|Prof\.)\s*/i, '$1 ')`: if
the line starts
with a title (case-insensitively), keep the original-case title, one space,
and the rest with its leading whitespace removed. -/
def titleList : List (List Char) := ["Dr.", "Mr.", "Ms.", "Prof."].map String.toList

def fixTitle (cs : List Char) : List Char :=
  match titleList.find? (fun t => decide ((cs.take t.length).map Char.toLower = t.map Char.toLower)) with
  | some t => cs.take t.length ++ ' ' :: ((cs.drop t.length).dropWhile (wsChar ·))
  | none => cs

/-- Step 3 matcher `/:\s*\(([^)]+)\)/` tried at one position (head must be
`:`): greedy `\s*` cannot usefully backtrack (a shorter run faces whitespace
where `(` is required), nor can `[^)]+`.  Returns the captured group and the
number of characters the whole match spans. -/
def roomMatchAt : List Char → Option (List Char × Nat)
  | ':' :: rest =>
    let w := rest.takeWhile (wsChar ·)
    match rest.drop w.length with
    | '(' :: r2 =>
      let inner := r2.takeWhile (· ≠ ')')
      if inner.isEmpty then none
      else
        match r2.drop inner.length with
        | ')' :: _ => some (inner, 1 + w.length + 1 + inner.length + 1)
        | _ => none
    | _ => none
  | _ => none

/-- Leftmost match of the room pattern, returning the captured group and the
line with the matched span removed (`line.replace(/:\s*\([^)]+\)/, '')`). -/
def findRoom : List Char → Option (List Char × List Char)
  | [] => none
  | c :: cs =>
    match roomMatchAt (c :: cs) with
    | some (inner, len) => some (inner, (c :: cs).drop len)
    | none => (findRoom cs).map (fun p => (p.1, c :: p.2))

/-- The replacement `.replace(/^(Room\s*)?/i, '')`: strip a leading
case-insensitive `Room`
together with the whitespace after it. -/
def stripRoomPrefix (cs : List Char) : List Char :=
  if (cs.take 4).map Char.toLower = "room".toList then (cs.drop 4).dropWhile (wsChar ·) else cs

/-- A letter of the step-4 type-code class `[PLTFpr]` under the `/i` flag:
`P`, `L`, `T`, `F` or `R` in either case. -/
def isTypeChar (c : Char) : Bool :=
  c.toLower = 'p' || c.toLower = 'l' || c.toLower = 't' || c.toLower = 'f' || c.toLower = 'r'

/-- The tail `\s*(?:\(([PLTFpr]+)\))?\s*:?$` of the subject pattern applied
to the text after the lazy subject: `some code?` when it matches, where
`code?` is the optional captured type code.  A `(` that starts a failed code
group cannot be consumed by anything else, so no backtracking into the
"group skipped" branch succeeds. -/
def subjTail (rest : List Char) : Option (Option (List Char)) :=
  match rest.dropWhile (wsChar ·) with
  | [] => some none
  | [':'] => some none
  | '(' :: r2 =>
    let code := r2.takeWhile (isTypeChar ·)
    if code.isEmpty then none
    else
      match r2.drop code.length with
      | ')' :: r3 =>
        let r4 := r3.dropWhile (wsChar ·)
        if r4 = [] || r4 = [':'] then some (some code) else none
      | _ => none
  | _ => none

/-- The subject pattern `/^(.+?)\s*(?:\(([PLTFpr]+)\))?\s*:?$/i`: the lazy
`(.+?)` grows from
one character (a `.` matches anything but a line terminator); the first
prefix whose remainder passes `subjTail` wins.  Returns
(subject capture, optional type-code capture). -/
def subjSearch (acc : List Char) : List Char → Option (List Char × Option (List Char))
  | [] => none
  | c :: cs =>
    if c = '\n' || c = '\r' then none
    else
      match subjTail cs with
      | some code => some (acc ++ [c], code)
      | none => subjSearch (acc ++ [c]) cs

/-- The replacement `.replace(/:\s*$/, '')` (the fallback branch): remove a
trailing colon
together with the whitespace after it, when the line ends that way. -/
def stripTrailColon (cs : List Char) : List Char :=
  match lastIdxOf cs ':' with
  | some i => if (cs.drop (i + 1)).all (wsChar ·) then cs.take i else cs
  | none => cs

/-- The source's `private static calculateLineConfidence(...)`.  The JS truthiness tests
`subject && subject.length > 3` and `lecturer && lecturer.length > 3`
reduce to the length tests (a string of length > 3 is non-empty). -/
def calculateLineConfidence (subject ty room lecturer : String) (groups : List String) : Conf :=
  let score :=
    (if subject.length > 3 then 2 else 0) +
    (if ty ≠ "" then 1 else 0) +
    (if room ≠ "" then 1 else 0) +
    (if lecturer.length > 3 then 1 else 0) +
    (if groups.length > 0 then 1 else 0)
  if score ≥ 5 then .high else if score ≥ 3 then .medium else .low

/-- The source's `private static parseSessionLine(line: string): ParsedCell | null`.

The body's `try` can only fail on genuinely exceptional conditions absent
from this pure model, so the `catch (→ null)` arm is not represented. -/
def parseSessionLine (line : String) : Option ParsedCell :=
  let cs0 := line.toList
  -- Step 1: groups — `line.match(/\(([^)]+)\)\s*$/)`, then
  -- `line = line.substring(0, line.lastIndexOf('(')).trim()`.
  let (groups, cs1) :=
    match findGroups cs0 with
    | some inner =>
      let gs := (tokensBy (fun c => c = ',' || wsChar c) inner).map String.mk
      -- `split(/[,\s]+/).map(g => g.trim()).filter(g => g && g.length > 0)`:
      -- tokens contain no separator characters, so the per-token trim is a
      -- no-op and the filter drops exactly the empty boundary pieces, which
      -- `tokensBy` never produces.
      (gs, trimList (match lastIdxOf cs0 '(' with | some k => cs0.take k | none => []))
    | none => ([], cs0)
  -- Step 2: lecturer — `line.match(/:\s*([^:()]+?)(?:\s*:\s*)?$/)`, then
  -- `line = line.substring(0, line.lastIndexOf(':')).trim()`.
  let (lecturer, cs2) :=
    match findLect cs1 with
    | some g =>
      (String.mk (collapseWS (fixTitle (trimList g))),
       trimList (match lastIdxOf cs1 ':' with | some k => cs1.take k | none => []))
    | none => ("", cs1)
  -- Step 3: room — `line.match(/:\s*\(([^)]+)\)/)`, then
  -- `line = line.replace(/:\s*\([^)]+\)/, '').trim()`.
  let (room, cs3) :=
    match findRoom cs2 with
    | some (inner, removed) =>
      (String.mk (collapseWS (stripRoomPrefix (trimList inner))), trimList removed)
    | none => ("", cs2)
  -- Step 4: subject and type.
  let (subject, ty) :=
    match subjSearch [] cs3 with
    | some (m1, code) =>
      (String.mk (rtrimList (collapseWS (trimList m1))),
       String.mk ((code.getD []).map Char.toUpper))
    | none =>
      -- fallback: `line.replace(/:\s*$/, '').trim().replace(/\s+/g, ' ')`
      (String.mk (collapseWS (trimList (stripTrailColon cs3))), "")
  if subject = "" then none
  else
    some
      { subject_name := subject
        session_type := ty
        room_or_code := room
        lecturer := lecturer
        groups := groups
        raw_text := String.mk cs3
        confidence := calculateLineConfidence subject ty room lecturer groups }

/-! ## `parseSessionCell` -/

/-- Build a `Session` from a parsed line (the object literal in
`parseSessionCell`, with `uuidv4()` replaced by the supplied id). -/
def mkSession (id day startTime : String) (p : ParsedCell) : Session :=
  { id := id
    day := day
    start_time := startTime
    duration_slots := 1
    subject_name := p.subject_name
    session_type := p.session_type
    room := p.room_or_code
    lecturer := p.lecturer
    groups := p.groups
    notes := ""
    attendance_marked := none }

/-- The source's `private static parseSessionCell(cellContent, day, startTime): Session[]`.
`uuid` is the external id supply and `n0` the index of the next `uuidv4()`
call of the run; returns the sessions and the updated call index. -/
def parseSessionCell (uuid : Nat → String) (n0 : Nat)
    (cellContent day startTime : String) : List Session × Nat :=
  let lines := (splitChar '\n' cellContent).filter (fun l => jsTrim l ≠ "")
  lines.foldl
    (fun (acc : List Session × Nat) l =>
      match parseSessionLine (jsTrim l) with
      | some parsed => (acc.1 ++ [mkSession (uuid acc.2) day startTime parsed], acc.2 + 1)
      | none => acc)
    ([], n0)

/-! ## `findTimetableSheet` (SheetLocator) -/

/-- The row window of the scans: `range.s.r .. min(range.e.r, range.s.r + 10)`. -/
def windowRows (sh : Sheet) : List Nat := interval sh.startRow (min sh.endRow (sh.startRow + 10))

/-- The column window of `findTimetableSheet`:
`range.s.c .. min(range.e.c, range.s.c + 10)`. -/
def windowCols (sh : Sheet) : List Nat := interval sh.startCol (min sh.endCol (sh.startCol + 10))

/-- One row of the `findTimetableSheet` scan: fold the window's columns,
accumulating the row's `hasTime` flag and `dayCount` counter.  The inner
`for (const day of this.DAYS) { ... break; }` counts a cell once if its text
contains any weekday name. -/
def rowQualifies (sh : Sheet) (r : Nat) : Bool :=
  let res := (windowCols sh).foldl
    (fun (acc : Bool × Nat) c =>
      match sh.cell r c with
      | none => acc
      | some v =>
        let t := jsTrim (jsLower v)
        (acc.1 || containsSub t "time",
         if DAYS.any (fun d => containsSub t (jsLower d)) then acc.2 + 1 else acc.2))
    (false, 0)
  res.1 && res.2 ≥ 3

/-- The source's `private static findTimetableSheet(workbook): string | null`.  A workbook
is the ordered list of (sheet name, sheet).  The nested loops with early
`return sheetName` amount to: first sheet with a qualifying row wins; the
final `return workbook.SheetNames[0]` falls back to the first sheet
(`undefined`, i.e. `none`, for an empty workbook). -/
def findTimetableSheet (wb : List (String × Sheet)) : Option String :=
  match wb.find? (fun p => (windowRows p.2).any (fun r => rowQualifies p.2 r)) with
  | some p => some p.1
  | none => wb.head?.map (·.1)

/-! ## `parseWorksheet` (GridExtractor + PreviewAssembler) -/

/-- The mutable header-detection state of `parseWorksheet`
(`headerRow = timeCol = -1` is `none`; `dayCols` is a JS object, i.e. an
insertion-ordered association list). -/
structure HeaderState where
  headerRow : Option Nat
  timeCol : Option Nat
  dayCols : List (String × Nat)
deriving Repr, DecidableEq

/-- JS object assignment `obj[k] = v`: update in place when the key exists
(keeping its position), otherwise append. -/
def objAssign (m : List (String × Nat)) (k : String) (v : Nat) : List (String × Nat) :=
  if m.any (·.1 = k) then m.map (fun p => if p.1 = k then (k, v) else p) else m ++ [(k, v)]

/-- One cell of the header scan: a cell containing `time` overwrites
`headerRow`/`timeCol` (last match wins); every weekday name contained in the
text maps that weekday to this column (no `break` in this day loop). -/
def scanHeaderCell (sh : Sheet) (r c : Nat) (st : HeaderState) : HeaderState :=
  match sh.cell r c with
  | none => st
  | some v =>
    let t := jsTrim (jsLower v)
    let st1 := if containsSub t "time" then { st with headerRow := some r, timeCol := some c } else st
    DAYS.foldl
      (fun s d => if containsSub t (jsLower d) then { s with dayCols := objAssign s.dayCols d c } else s)
      st1

/-- The column loop of the header scan runs over the sheet's **full** column
extent `range.s.c .. range.e.c` (unlike `findTimetableSheet`'s window). -/
def scanCols (sh : Sheet) : List Nat := interval sh.startCol sh.endCol

def scanHeaderRow (sh : Sheet) (r : Nat) (st : HeaderState) : HeaderState :=
  (scanCols sh).foldl (fun s c => scanHeaderCell sh r c s) st

/-- The row loop of the header scan, with the early
`if (headerRow !== -1 && Object.keys(dayCols).length >= 3) break;`. -/
def scanHeaderRows (sh : Sheet) : List Nat → HeaderState → HeaderState
  | [], st => st
  | r :: rs, st =>
    let st' := scanHeaderRow sh r st
    if st'.headerRow.isSome && st'.dayCols.length ≥ 3 then st' else scanHeaderRows sh rs st'

/-- The whole header scan of `parseWorksheet`. -/
def headerScan (sh : Sheet) : HeaderState :=
  scanHeaderRows sh (windowRows sh) ⟨none, none, []⟩

/-- The accumulator of the data walk: collected sessions, diagnostics, and
the index of the next `uuidv4()` call. -/
structure WalkAcc where
  sessions : List Session
  unparsed : List UnparsedCell
  counter : Nat
deriving Repr, DecidableEq

/-- An abstract cell parser: content, day, start time, next-id index; errors
model a thrown exception inside the `try` block. -/
def CellParser : Type := String → String → String → Nat → Except Unit (List Session × Nat)

/-- The per-day-column body of the data walk: skip absent/blank cells,
otherwise run the cell parser inside the `try`; on a throw, push one
`UnparsedCell` with 1-based coordinates. -/
def processDayCell (pc : CellParser) (sh : Sheet) (r : Nat) (timeStr : String)
    (acc : WalkAcc) (entry : String × Nat) : WalkAcc :=
  match sh.cell r entry.2 with
  | none => acc
  | some sv =>
    let content := jsTrim sv
    if content = "" then acc
    else
      match pc content entry.1 timeStr acc.counter with
      | .ok (ss, n') => { acc with sessions := acc.sessions ++ ss, counter := n' }
      | .error _ => { acc with unparsed := acc.unparsed ++ [⟨r + 1, entry.2 + 1, content⟩] }

/-- One data row: read and normalize the time cell (silently skipping the
row when absent or unnormalizable), then visit every mapped day column in
`Object.entries` order.  (The source also pushes `timeStr` onto a local
`timeslots` array that never reaches the returned preview; it is omitted.) -/
def processRow (pc : CellParser) (sh : Sheet) (dayCols : List (String × Nat)) (tc : Nat)
    (acc : WalkAcc) (r : Nat) : WalkAcc :=
  match sh.cell r tc with
  | none => acc
  | some tv =>
    match normalizeTime tv with
    | none => acc
    | some timeStr => dayCols.foldl (processDayCell pc sh r timeStr) acc

/-- The source's `private static calculateConfidence(parsed, total)`.  The JS float
comparisons `parsed / Math.max(total, 1) >= 0.8` (resp. `>= 0.6`) are
modelled by the exact rational comparisons `5 * parsed ≥ 4 * max(total, 1)`
(resp. `5 * parsed ≥ 3 * max(total, 1)`); for every cell count a spreadsheet
can produce the double-precision comparison agrees with the rational one,
the quotient being at least `1 / (5 * total)` away from the literals' values
whenever it is not exactly equal to them. -/
def calculateConfidence (parsed total : Nat) : Conf :=
  if 5 * parsed ≥ 4 * max total 1 then .high
  else if 5 * parsed ≥ 3 * max total 1 then .medium
  else .low

/-- The failure message of the structure check. -/
def structureErrorMsg : String :=
  "Could not find timetable structure. Ensure your Excel has a \"Time\" column and weekday headers."

/-- The source's `private static parseWorksheet(worksheet): ImportPreview`,
generic in the
cell parser (the concrete engine instantiates `pc` with `parseSessionCell`,
which never throws; an abstract `pc` models the `try`/`catch`). -/
def parseWorksheetGen (pc : CellParser) (sh : Sheet) : Except String ImportPreview :=
  let st := headerScan sh
  match st.headerRow, st.timeCol with
  | some hr, some tc =>
    let acc := (interval (hr + 1) sh.endRow).foldl (processRow pc sh st.dayCols tc) ⟨[], [], 0⟩
    let totalCells := (sh.endRow - hr) * st.dayCols.length
    let parsedCells := totalCells - acc.unparsed.length
    .ok
      { sessions := acc.sessions
        unparsedCells := acc.unparsed
        metadata :=
          { totalCells := totalCells
            parsedCells := parsedCells
            confidence := calculateConfidence parsedCells totalCells } }
  | _, _ => .error structureErrorMsg

/-- The engine's own cell parser never throws. -/
def realCellParser (uuid : Nat → String) : CellParser :=
  fun content day timeStr n => .ok (parseSessionCell uuid n content day timeStr)

/-- The engine `parseWorksheet` with the id supply made explicit. -/
def parseWorksheet (uuid : Nat → String) (sh : Sheet) : Except String ImportPreview :=
  parseWorksheetGen (realCellParser uuid) sh

/-- A cell parser under a failure oracle: a cell whose (trimmed) content
satisfies `bad` throws while being parsed; every other cell parses normally.
Models "an unexpected error while parsing any line in a cell". -/
def oraclePc (bad : String → Bool) (uuid : Nat → String) : CellParser :=
  fun content day timeStr n =>
    if bad content then .error () else .ok (parseSessionCell uuid n content day timeStr)

/-- The engine under a failure oracle. -/
def parseWorksheetOracle (bad : String → Bool) (uuid : Nat → String) (sh : Sheet) :
    Except String ImportPreview :=
  parseWorksheetGen (oraclePc bad uuid) sh

/-! ## Declarative characterizations (proved equal to the folds below) -/

/-- Erase the (randomly generated) id of a session. -/
def stripId (s : Session) : Session := { s with id := "" }

/-- Erase every session id of a result. -/
def stripIds : Except String ImportPreview → Except String ImportPreview
  | .ok p => .ok { p with sessions := p.sessions.map stripId }
  | .error e => .error e

/-- The sessions a cell's content contributes, up to ids. -/
def cellSessionsNoId (content day timeStr : String) : List Session :=
  ((splitChar '\n' content).filter (fun l => jsTrim l ≠ "")).filterMap
    (fun l => (parseSessionLine (jsTrim l)).map (mkSession "" day timeStr))

/-- The non-blank trimmed content of a grid cell, when present. -/
def cellText (sh : Sheet) (r c : Nat) : Option String :=
  match sh.cell r c with
  | none => none
  | some sv => let ct := jsTrim sv; if ct = "" then none else some ct

/-- A data cell the walk visits: its 0-based position, its day column's
weekday, its non-blank trimmed content and its row's normalized time. -/
structure VisitedCell where
  row : Nat
  col : Nat
  day : String
  content : String
  time : String
deriving Repr, DecidableEq

/-- The data rows the walk processes: each row strictly below the header
whose time cell is present and normalizes, with its normalized time. -/
def dataRows (sh : Sheet) (hr tc : Nat) : List (Nat × String) :=
  (interval (hr + 1) sh.endRow).filterMap
    (fun r => (sh.cell r tc).bind (fun tv => (normalizeTime tv).map (fun ts => (r, ts))))

/-- The day cells of one data row, in `Object.entries(dayCols)` order. -/
def rowCells (sh : Sheet) (dayCols : List (String × Nat)) (rt : Nat × String) :
    List VisitedCell :=
  dayCols.filterMap (fun e => (cellText sh rt.1 e.2).map (fun ct => ⟨rt.1, e.2, e.1, ct, rt.2⟩))

/-- Every data cell the walk visits, in visit order. -/
def dataCells (sh : Sheet) (dayCols : List (String × Nat)) (hr tc : Nat) : List VisitedCell :=
  (dataRows sh hr tc).flatMap (rowCells sh dayCols)

/-- A cell of the `findTimetableSheet` scan window whose text contains
`time`. -/
def timeCell (sh : Sheet) (r c : Nat) : Bool :=
  match sh.cell r c with
  | some v => containsSub (jsTrim (jsLower v)) "time"
  | none => false

/-- A cell whose text contains some weekday name. -/
def dayCell (sh : Sheet) (r c : Nat) : Bool :=
  match sh.cell r c with
  | some v => DAYS.any (fun d => containsSub (jsTrim (jsLower v)) (jsLower d))
  | none => false

/-- Declarative form of one row of the `findTimetableSheet` scan: the row
has a `time` cell in the column window. -/
def rowHasTime (sh : Sheet) (r : Nat) : Bool :=
  (windowCols sh).any (fun c => timeCell sh r c)

/-- Declarative form of the row's day counter: how many window cells of the
row contain a weekday name. -/
def rowDayCellCount (sh : Sheet) (r : Nat) : Nat :=
  ((windowCols sh).filter (fun c => dayCell sh r c)).length

/-! ## Definitions modelled from the claims' words (for refutation only) -/

/-- Modelled from claim C2's words, *not* from the source: a sheet qualifies
when, anywhere within its 11×11 scan window, some cell's text contains
`time` **and** at least 3 *distinct* weekday names have matched. -/
def sheetQualifiesClaimC2 (sh : Sheet) : Bool :=
  ((windowRows sh).any (fun r => rowHasTime sh r)) &&
    (DAYS.filter (fun d =>
      (windowRows sh).any (fun r => (windowCols sh).any (fun c =>
        match sh.cell r c with
        | some v => containsSub (jsTrim (jsLower v)) (jsLower d)
        | none => false)))).length ≥ 3

/-- Modelled from claim C2's words: first qualifying sheet, else the first
sheet. -/
def findTimetableSheetClaimC2 (wb : List (String × Sheet)) : Option String :=
  match wb.find? (fun p => sheetQualifiesClaimC2 p.2) with
  | some p => some p.1
  | none => wb.head?.map (·.1)

/-- Modelled from claim C3's words: a canonical zero-padded 24-hour time,
exactly two digits, a colon, two digits, hour in `[0,23]`, minutes in
`[0,59]`. -/
def isCanonicalHHMM (s : String) : Bool :=
  match s.toList with
  | [a, b, ':', c, d] =>
    a.isDigit && b.isDigit && c.isDigit && d.isDigit &&
      parseDigits [a, b] ≤ 23 && parseDigits [c, d] ≤ 59
  | _ => false

/-! ## Concrete grids for witnesses and counterexamples -/

/-- A sparse grid given by an explicit cell list. -/
def mkCells (l : List (Nat × Nat × String)) : Nat → Nat → Option String :=
  fun r c => (l.find? (fun t => t.1 = r && t.2.1 = c)).map (·.2.2)

/-- A small timetable grid: header in row 0, two data rows, one of which has
an unnormalizable time. -/
def shMain : Sheet :=
  ⟨0, 0, 2, 2, mkCells
    [(0, 0, "Time"), (0, 1, "Monday"), (0, 2, "Tuesday"),
     (1, 0, "9:00"), (1, 1, "Math"), (1, 2, "Physics"),
     (2, 0, "xx"), (2, 1, "Chem")]⟩

/-- A sheet with no `time` text and no weekday text at all. -/
def shJunk : Sheet := ⟨0, 0, 0, 0, mkCells [(0, 0, "hello")]⟩

/-- A sheet whose scan window contains a `time` cell (row 0) and three
distinct weekday cells (row 1) — but no single row has both. -/
def shSplit : Sheet :=
  ⟨0, 0, 1, 2, mkCells
    [(0, 0, "time"), (1, 0, "monday"), (1, 1, "tuesday"), (1, 2, "wednesday")]⟩

/-- A sheet whose only `time` cell sits at column 12, inside the sheet's
range but outside an 11×11 window. -/
def shWideTime : Sheet := ⟨0, 0, 0, 12, mkCells [(0, 12, "Time")]⟩

/-- The same sheet with that out-of-window cell cleared. -/
def shWideEmpty : Sheet := ⟨0, 0, 0, 12, mkCells []⟩

/-- A sheet with a complete header and one session, plus a stray cell at row
12 — below the header-scan row window. -/
def shDeepA : Sheet :=
  ⟨0, 0, 12, 1, mkCells
    [(0, 0, "Time"), (0, 1, "Monday"), (1, 0, "9:00"), (1, 1, "Math"), (12, 0, "noise")]⟩

/-- The same sheet with the row-12 cell changed. -/
def shDeepB : Sheet :=
  ⟨0, 0, 12, 1, mkCells
    [(0, 0, "Time"), (0, 1, "Monday"), (1, 0, "9:00"), (1, 1, "Math"), (12, 0, "time monday tuesday")]⟩

/-- One visited data cell's effect on the walk accumulator (the body of the
`try`/`catch` over one day cell, with the cell's data precomputed). -/
def visitStep (pc : CellParser) (acc : WalkAcc) (q : VisitedCell) : WalkAcc :=
  match pc q.content q.day q.time acc.counter with
  | .ok (ss, n') => { acc with sessions := acc.sessions ++ ss, counter := n' }
  | .error _ => { acc with unparsed := acc.unparsed ++ [⟨q.row + 1, q.col + 1, q.content⟩] }

/-- The preview `parseWorksheetGen` assembles once the header is found, as a
function of the walked cells. -/
def assemblePreview (sh : Sheet) (pc : CellParser) (hr tc : Nat) : ImportPreview :=
  let acc := (dataCells sh (headerScan sh).dayCols hr tc).foldl (visitStep pc) ⟨[], [], 0⟩
  let total := (sh.endRow - hr) * (headerScan sh).dayCols.length
  { sessions := acc.sessions
    unparsedCells := acc.unparsed
    metadata :=
      { totalCells := total
        parsedCells := total - acc.unparsed.length
        confidence := calculateConfidence (total - acc.unparsed.length) total } }

/-- The id supplies of two distinct runs (uuidv4 is random, so distinct runs
draw distinct ids). -/
def uuidRunA : Nat → String := fun n => "a-" ++ Nat.repr n

def uuidRunB : Nat → String := fun n => "b-" ++ Nat.repr n

/-- The failure oracle of C5's witness: the cell containing `Math` throws. -/
def badMath : String → Bool := fun s => s = "Math"

/-- The preview of a successful run on `shMain` (defined from the engine so
the witnesses below can refer to it). -/
def pMain : ImportPreview :=
  ((parseWorksheet uuidRunA shMain).toOption).getD ⟨[], [], ⟨0, 0, .low⟩⟩

/-- The preview of an oracle run on `shMain` where the `Math` cell throws. -/
def pOracle : ImportPreview :=
  ((parseWorksheetOracle badMath uuidRunA shMain).toOption).getD ⟨[], [], ⟨0, 0, .low⟩⟩

/-- The first session `shMain` yields. -/
def sMain : Session :=
  ⟨"a-0", "Monday", "09:00", 1, "Math", "", "", "", [], "", none⟩

/-! ## C1 — the spec's flagship line example -/

/-- The observable fields claim C1 speaks about. -/
def lineFields (p : ParsedCell) : String × String × String × String × List String × Conf :=
  (p.subject_name, p.session_type, p.room_or_code, p.lecturer, p.groups, p.confidence)

/-- C1 is false: on `"Math (L): (Room3) Dr. Smith: (G1,G2)"` the line parser
does **not** return subject `Math`, type `L`, room `Room3`, lecturer
`Dr. Smith` and high confidence.  The lecturer pattern
`/:\s*([^:()]+?)(?:\s*:\s*)?$/` cannot bridge the parenthesized room, so no
lecturer is extracted; the room step strips the `Room` prefix leaving `3`;
what remains of the line, `Math (L) Dr. Smith`, becomes the subject with an
empty type; the score is 2+0+1+0+1 = 4, i.e. medium. -/
theorem c1_counterexample :
    (parseSessionLine "Math (L): (Room3) Dr. Smith: (G1,G2)").map lineFields =
      some ("Math (L) Dr. Smith", "", "3", "", ["G1", "G2"], Conf.medium) ∧
    (parseSessionLine "Math (L): (Room3) Dr. Smith: (G1,G2)").map ParsedCell.subject_name ≠
      some "Math" ∧
    (parseSessionLine "Math (L): (Room3) Dr. Smith: (G1,G2)").map ParsedCell.lecturer ≠
      some "Dr. Smith" ∧
    (parseSessionLine "Math (L): (Room3) Dr. Smith: (G1,G2)").map ParsedCell.room_or_code ≠
      some "Room3" ∧
    (parseSessionLine "Math (L): (Room3) Dr. Smith: (G1,G2)").map ParsedCell.confidence ≠
      some Conf.high := by
  refine ⟨by rfl, by decide, by decide, by decide, by decide⟩

/-- C1 (amended): for the input line
`"Math (L): (Room3) Dr. Smith: (G1,G2)"` the parser returns a ParsedLine
with subject_name `"Math (L) Dr. Smith"`, session_type `""`, room_or_code
`"3"`, lecturer `""`, groups `["G1","G2"]`, and confidence medium
(line score 2+0+1+0+1 = 4). -/
theorem c1_line_example :
    (parseSessionLine "Math (L): (Room3) Dr. Smith: (G1,G2)").map lineFields =
      some ("Math (L) Dr. Smith", "", "3", "", ["G1", "G2"], Conf.medium) := by
  rfl

/-! ## C2 — the sheet locator -/

/-- C2 is false at a concrete workbook: the second sheet's window contains a
`time` cell (row 0) and three distinct weekday cells (row 1), so under the
claim's window-wide reading it qualifies and should be returned; the code
accumulates `hasTime`/`dayCount` per row, finds no qualifying row in either
sheet, and falls back to the *first* sheet's name. -/
theorem c2_counterexample :
    findTimetableSheet [("S1", shJunk), ("S2", shSplit)] = some "S1" ∧
    findTimetableSheetClaimC2 [("S1", shJunk), ("S2", shSplit)] = some "S2" ∧
    ("S1" : String) ≠ "S2" := by
  refine ⟨by rfl, by rfl, by decide⟩

/-! ## C3 — the time normalizer's output shape -/

/-- C3 is false: `normalizeTime` performs no range validation on the
`H:MM` pattern, so `"25:99"` is returned verbatim with hour 25 and minutes
99; and the bare `H AM/PM` pattern mis-indexes its groups (`match[2]` is the
meridiem text, so `parseInt` yields `NaN`), producing `"02:NaN"` — neither
output is a canonical in-range `HH:MM`. -/
theorem c3_counterexample :
    normalizeTime "25:99" = some "25:99" ∧ isCanonicalHHMM "25:99" = false ∧
    normalizeTime "2 PM" = some "02:NaN" ∧ isCanonicalHHMM "02:NaN" = false := by
  refine ⟨by rfl, by rfl, by rfl, by rfl⟩

/-- A digit character's value is at most 9. -/
lemma digit_val_le (c : Char) (h : c.isDigit = true) : c.toNat - '0'.toNat ≤ 9 := by
  simp [Char.isDigit] at h
  obtain ⟨h1, h2⟩ := h
  simp only [UInt32.le_def, BitVec.le_def] at h1 h2
  have e0 : '0'.toNat = 48 := rfl
  have ec : c.toNat = c.val.toBitVec.toNat := rfl
  have e48 : (48 : UInt32).toBitVec.toNat = 48 := rfl
  have e57 : (57 : UInt32).toBitVec.toNat = 57 := rfl
  omega

/-- A list of at most two digits parses to at most 99. -/
lemma parseDigits_le_99 (cs : List Char) (hl : cs.length ≤ 2)
    (hd : ∀ c ∈ cs, c.isDigit = true) : parseDigits cs ≤ 99 := by
  match cs, hl with
  | [], _ => simp [parseDigits]
  | [a], _ =>
    have := digit_val_le a (hd a (by simp))
    show 0 * 10 + (a.toNat - '0'.toNat) ≤ 99
    omega
  | [a, b], _ =>
    have ha := digit_val_le a (hd a (by simp))
    have hb := digit_val_le b (hd b (by simp))
    show (0 * 10 + (a.toNat - '0'.toNat)) * 10 + (b.toNat - '0'.toNat) ≤ 99
    omega
  | _ :: _ :: _ :: _, hl => simp at hl

/-- What `digits12` guarantees about its first component. -/
lemma digits12_spec {cs h r : List Char} (e : digits12 cs = some (h, r)) :
    h.length ≤ 2 ∧ (∀ c ∈ h, c.isDigit = true) := by
  unfold digits12 at e
  dsimp only at e
  split at e
  · exact absurd e (by simp)
  · rename_i hg
    simp only [Option.some.injEq, Prod.mk.injEq] at e
    obtain ⟨e1, _⟩ := e
    subst e1
    simp only [Bool.or_eq_true, decide_eq_true_eq, not_or] at hg
    exact ⟨by omega, fun c hc => List.mem_takeWhile_imp hc⟩

/-- What `digits2` guarantees. -/
lemma digits2_spec {cs m r : List Char} (e : digits2 cs = some (m, r)) :
    m.length ≤ 2 := by
  unfold digits2 at e
  split at e
  · split at e
    · simp only [Option.some.injEq, Prod.mk.injEq] at e
      obtain ⟨e1, _⟩ := e
      subst e1
      simp
    · exact absurd e (by simp)
  · exact absurd e (by simp)

/-- What `ampmAt` guarantees. -/
lemma ampmAt_spec {cs m r : List Char} (e : ampmAt cs = some (m, r)) :
    m.length ≤ 2 := by
  unfold ampmAt at e
  split at e
  · split at e
    · simp only [Option.some.injEq, Prod.mk.injEq] at e
      obtain ⟨e1, _⟩ := e
      subst e1
      simp
    · exact absurd e (by simp)
  · exact absurd e (by simp)

/-- The guarantees of pattern 1's captures. -/
lemma matchP1_spec {cs h m : List Char} (e : matchP1 cs = some (h, m)) :
    h.length ≤ 2 ∧ (∀ c ∈ h, c.isDigit = true) ∧ m.length ≤ 2 := by
  simp only [matchP1, bind, Option.bind_eq_some] at e
  obtain ⟨⟨h', r1⟩, ed, e⟩ := e
  obtain ⟨d1, d2⟩ := digits12_spec ed
  split at e
  · simp only [bind, Option.bind_eq_some] at e
    obtain ⟨⟨m', r3⟩, em, e⟩ := e
    have := digits2_spec em
    split at e
    · simp only [Option.some.injEq, Prod.mk.injEq] at e
      obtain ⟨e1, e2⟩ := e
      subst e1; subst e2
      exact ⟨d1, d2, this⟩
    · exact absurd e (by simp)
  · exact absurd e (by simp)

/-- The guarantees of pattern 2's captures. -/
lemma matchP2_spec {cs h m : List Char} (e : matchP2 cs = some (h, m)) :
    h.length ≤ 2 ∧ (∀ c ∈ h, c.isDigit = true) ∧ m.length ≤ 2 := by
  simp only [matchP2, bind, Option.bind_eq_some] at e
  obtain ⟨⟨h', r1⟩, ed, e⟩ := e
  obtain ⟨d1, d2⟩ := digits12_spec ed
  split at e
  · simp only [bind, Option.bind_eq_some] at e
    obtain ⟨⟨m', r3⟩, em, e⟩ := e
    have := digits2_spec em
    split at e
    · simp only [Option.some.injEq, Prod.mk.injEq] at e
      obtain ⟨e1, e2⟩ := e
      subst e1; subst e2
      exact ⟨d1, d2, this⟩
    · exact absurd e (by simp)
  · exact absurd e (by simp)

/-- The guarantees of pattern 3's captures. -/
lemma matchP3_spec {cs h m ap : List Char} (e : matchP3 cs = some (h, m, ap)) :
    h.length ≤ 2 ∧ (∀ c ∈ h, c.isDigit = true) ∧ m.length ≤ 2 := by
  simp only [matchP3, bind, Option.bind_eq_some] at e
  obtain ⟨⟨h', r1⟩, ed, e⟩ := e
  obtain ⟨d1, d2⟩ := digits12_spec ed
  split at e
  · simp only [bind, Option.bind_eq_some] at e
    obtain ⟨⟨m', r3⟩, em, e⟩ := e
    have := digits2_spec em
    obtain ⟨⟨ap', r4⟩, _, e⟩ := e
    split at e
    · simp only [Option.some.injEq, Prod.mk.injEq] at e
      obtain ⟨e1, e2, _⟩ := e
      subst e1; subst e2
      exact ⟨d1, d2, this⟩
    · exact absurd e (by simp)
  · exact absurd e (by simp)

/-- The guarantees of pattern 4's captures (slot 2 is the meridiem text). -/
lemma matchP4_spec {cs h ap : List Char} (e : matchP4 cs = some (h, ap)) :
    h.length ≤ 2 ∧ (∀ c ∈ h, c.isDigit = true) ∧ ap.length ≤ 2 := by
  simp only [matchP4, bind, Option.bind_eq_some] at e
  obtain ⟨⟨h', r1⟩, ed, e⟩ := e
  obtain ⟨d1, d2⟩ := digits12_spec ed
  obtain ⟨⟨ap', r2⟩, ea, e⟩ := e
  have := ampmAt_spec ea
  split at e
  · simp only [Option.some.injEq, Prod.mk.injEq] at e
    obtain ⟨e1, e2⟩ := e
    subst e1; subst e2
    exact ⟨d1, d2, this⟩
  · exact absurd e (by simp)

/-- Every pattern's slot 1 is at most two digits; slot 2 has length ≤ 2. -/
lemma tryTimePatterns_spec {cs m1 m2 : List Char} {m3 : Option (List Char)}
    (e : tryTimePatterns cs = some (m1, m2, m3)) :
    m1.length ≤ 2 ∧ (∀ c ∈ m1, c.isDigit = true) ∧ m2.length ≤ 2 := by
  unfold tryTimePatterns at e
  split at e
  · rename_i h m e1
    simp only [Option.some.injEq, Prod.mk.injEq] at e
    obtain ⟨a, b, _⟩ := e
    subst a; subst b
    exact matchP1_spec e1
  · split at e
    · rename_i h m e2
      simp only [Option.some.injEq, Prod.mk.injEq] at e
      obtain ⟨a, b, _⟩ := e
      subst a; subst b
      exact matchP2_spec e2
    · split at e
      · rename_i h m ap e3
        simp only [Option.some.injEq, Prod.mk.injEq] at e
        obtain ⟨a, b, _⟩ := e
        subst a; subst b
        exact matchP3_spec e3
      · split at e
        · rename_i h ap e4
          simp only [Option.some.injEq, Prod.mk.injEq] at e
          obtain ⟨a, b, _⟩ := e
          subst a; subst b
          exact matchP4_spec e4
        · exact absurd e (by simp)

/-- A `jsParseInt` result on a list of at most two characters is ≤ 99. -/
lemma jsParseInt_le {cs : List Char} {n : Nat} (hl : cs.length ≤ 2)
    (e : jsParseInt cs = some n) : n ≤ 99 := by
  unfold jsParseInt at e
  dsimp only at e
  split at e
  · exact absurd e (by simp)
  · simp only [Option.some.injEq] at e
    subst e
    refine parseDigits_le_99 _ ?_ (fun c hc => List.mem_takeWhile_imp hc)
    exact le_trans (List.takeWhile_prefix _).length_le hl

/-- Whatever a pattern match produced, the rendered time is `HH:MM`-shaped
with hour ≤ 111 and minutes ≤ 99, or `HH:NaN`-shaped. -/
lemma applyTimeMatch_shape (m1 m2 : List Char) (m3 : Option (List Char))
    (l1 : m1.length ≤ 2) (l2 : m2.length ≤ 2) :
    (∃ h m, h ≤ 111 ∧ m ≤ 99 ∧ applyTimeMatch m1 m2 m3 = pad2 h ++ ":" ++ pad2 m) ∨
    (∃ h, h ≤ 111 ∧ applyTimeMatch m1 m2 m3 = pad2 h ++ ":NaN") := by
  unfold applyTimeMatch
  dsimp only
  have hh0 : (jsParseInt m1).getD 0 ≤ 99 := by
    cases ej : jsParseInt m1 with
    | none => simp
    | some n => simpa using jsParseInt_le l1 ej
  set hours0 := (jsParseInt m1).getD 0 with hset
  set ampm : Option (List Char) := m3.map (·.map Char.toUpper) with aset
  set hours1 := if ampm = some ['P', 'M'] && hours0 ≠ 12 then hours0 + 12 else hours0 with h1set
  set hours2 := if ampm = some ['A', 'M'] && hours1 = 12 then 0 else hours1 with h2set
  have hb : hours2 ≤ 111 := by
    rw [h2set, h1set]
    split_ifs <;> omega
  cases ej : jsParseInt m2 with
  | some m =>
    left
    exact ⟨hours2, m, hb, jsParseInt_le l2 ej, rfl⟩
  | none =>
    right
    refine ⟨hours2, hb, ?_⟩
    rw [show (":NaN" : String) = ":" ++ "NaN" from rfl, ← String.append_assoc]

/-- C3 (amended): `normalizeTime` returns `null`, or a string
`pad(h) ++ ":" ++ pad(m)` with `h ≤ 111` and `m ≤ 99` (the colon and period
patterns perform no range validation, and PM can push a two-digit hour to
111), or — for the bare `H AM/PM` pattern, whose minute group is misindexed
onto the meridiem text — `pad(h) ++ ":NaN"`.  Only the bare-number fallback
enforces hour ∈ [0,23]. -/
theorem c3_time_shape (s : String) :
    normalizeTime s = none ∨
    (∃ h m, h ≤ 111 ∧ m ≤ 99 ∧ normalizeTime s = some (pad2 h ++ ":" ++ pad2 m)) ∨
    (∃ h, h ≤ 111 ∧ normalizeTime s = some (pad2 h ++ ":NaN")) := by
  unfold normalizeTime
  dsimp only
  cases e : tryTimePatterns (cleanTime s) with
  | some t =>
    obtain ⟨m1, m2, m3⟩ := t
    dsimp only
    obtain ⟨l1, _, l2⟩ := tryTimePatterns_spec e
    right
    rcases applyTimeMatch_shape m1 m2 m3 l1 l2 with ⟨h, m, hb, mb, he⟩ | ⟨h, hb, he⟩
    · exact Or.inl ⟨h, m, hb, mb, by rw [he]⟩
    · exact Or.inr ⟨h, hb, by rw [he]⟩
  | none =>
    dsimp only
    split
    · rename_i hg
      split
      · rename_i hh
        right; left
        refine ⟨parseDigits (List.takeWhile (fun x => x.isDigit) (cleanTime s)), 0,
          by omega, by omega, ?_⟩
        rw [show pad2 0 = "00" from rfl, show ("00" : String) = "0" ++ "0" from rfl]
        rw [show (":00" : String) = ":" ++ "0" ++ "0" from rfl]
        simp [String.append_assoc]
      · exact Or.inl rfl
    · exact Or.inl rfl

/-! ## C7 — determinism of the engine -/

/-- C7 is false at a concrete grid: two runs of the engine on the identical
grid, whose external `uuidv4()` generator returns different fresh tokens,
produce different `ImportPreview` values (the session ids differ). -/
theorem c7_counterexample :
    (parseWorksheet uuidRunA shMain).toOption ≠ (parseWorksheet uuidRunB shMain).toOption := by
  decide

/-! ## C8 — the header-scan window -/

/-- C8 is false: the header scan's column loop runs over the sheet's full
column extent, not an 11-column window.  Two sheets that agree on every cell
of the 11×11 window (rows 0..10 × columns 0..10) but differ at (0, 12) get
different detection results: with a `Time` cell at column 12 the scan
succeeds with `timeCol = 12`, without it no header is found at all. -/
theorem c8_counterexample :
    (∀ r ∈ interval 0 10, ∀ c ∈ interval 0 10, shWideTime.cell r c = shWideEmpty.cell r c) ∧
    headerScan shWideTime ≠ headerScan shWideEmpty ∧
    (headerScan shWideTime).timeCol = some 12 := by
  refine ⟨by decide, by decide, by rfl⟩

/-! ## Fold characterizations of the data walk -/

/-- Folding over a `filterMap` is folding with the skipped elements inert. -/
lemma foldl_filterMap_eq {α β γ : Type} (g : α → Option β) (f : γ → β → γ) (l : List α) (a : γ) :
    (l.filterMap g).foldl f a
      = l.foldl (fun acc x => match g x with | some y => f acc y | none => acc) a := by
  induction l generalizing a with
  | nil => rfl
  | cons x xs ih =>
    cases hx : g x <;> simp [List.filterMap_cons, hx, ih]

/-- Folding over a `flatMap` is folding the inner lists in turn. -/
lemma foldl_flatMap_eq {α β γ : Type} (g : α → List β) (f : γ → β → γ) (l : List α) (a : γ) :
    (l.flatMap g).foldl f a = l.foldl (fun acc x => (g x).foldl f acc) a := by
  induction l generalizing a with
  | nil => rfl
  | cons x xs ih => simp [List.flatMap_cons, List.foldl_append, ih]

/-- The day-column loop of one data row equals the visit-step fold over that
row's visited cells. -/
lemma processRow_dayfold (pc : CellParser) (sh : Sheet) (r : Nat) (ts : String)
    (dayCols : List (String × Nat)) (acc : WalkAcc) :
    dayCols.foldl (processDayCell pc sh r ts) acc
      = (rowCells sh dayCols (r, ts)).foldl (visitStep pc) acc := by
  induction dayCols generalizing acc with
  | nil => rfl
  | cons e es ih =>
    rw [List.foldl_cons]
    show es.foldl (processDayCell pc sh r ts) (processDayCell pc sh r ts acc e) = _
    unfold rowCells
    rw [List.filterMap_cons]
    cases hc : sh.cell r e.2 with
    | none =>
      have hct : cellText sh r e.2 = none := by simp [cellText, hc]
      simp only [hct, Option.map_none']
      rw [show processDayCell pc sh r ts acc e = acc by unfold processDayCell; rw [hc]]
      exact ih acc
    | some sv =>
      by_cases hz : jsTrim sv = ""
      · have hct : cellText sh r e.2 = none := by simp [cellText, hc, hz]
        simp only [hct, Option.map_none']
        rw [show processDayCell pc sh r ts acc e = acc by
          unfold processDayCell; rw [hc]; simp [hz]]
        exact ih acc
      · have hct : cellText sh r e.2 = some (jsTrim sv) := by simp [cellText, hc, hz]
        simp only [hct, Option.map_some']
        rw [List.foldl_cons]
        rw [show processDayCell pc sh r ts acc e
              = visitStep pc acc ⟨r, e.2, e.1, jsTrim sv, ts⟩ by
          unfold processDayCell visitStep; rw [hc]; simp [hz]]
        exact ih _

/-- The whole data walk is one visit-step fold over `dataCells`. -/
lemma walk_eq_dataCells (pc : CellParser) (sh : Sheet) (dayCols : List (String × Nat))
    (tc hr : Nat) (acc : WalkAcc) :
    (interval (hr + 1) sh.endRow).foldl (processRow pc sh dayCols tc) acc
      = (dataCells sh dayCols hr tc).foldl (visitStep pc) acc := by
  unfold dataCells dataRows
  rw [foldl_flatMap_eq, foldl_filterMap_eq]
  apply List.foldl_ext
  intro a r _
  cases hc : sh.cell r tc with
  | none => simp [processRow, hc]
  | some tv =>
    cases hn : normalizeTime tv with
    | none => simp [processRow, hc, hn]
    | some ts => simp [processRow, hc, hn, processRow_dayfold]

/-- Erasing the id of a freshly built session. -/
lemma stripId_mkSession (id day t : String) (p : ParsedCell) :
    stripId (mkSession id day t p) = mkSession "" day t p := rfl

/-- Up to ids, a cell's sessions are `cellSessionsNoId`, independently of the
id supply and the call counter. -/
lemma parseSessionCell_strip (uuid : Nat → String) (n : Nat) (content day t : String) :
    (parseSessionCell uuid n content day t).1.map stripId = cellSessionsNoId content day t := by
  unfold parseSessionCell cellSessionsNoId
  generalize (splitChar '\n' content).filter (fun l => jsTrim l ≠ "") = lines
  suffices h : ∀ (lines : List String) (ss : List Session) (n : Nat),
      ((lines.foldl
        (fun (acc : List Session × Nat) l =>
          match parseSessionLine (jsTrim l) with
          | some parsed => (acc.1 ++ [mkSession (uuid acc.2) day t parsed], acc.2 + 1)
          | none => acc) (ss, n)).1).map stripId
        = ss.map stripId ++ lines.filterMap (fun l => (parseSessionLine (jsTrim l)).map (mkSession "" day t)) by
    simpa using h lines [] n
  intro lines
  induction lines with
  | nil => simp
  | cons l ls ih =>
    intro ss n
    rw [List.foldl_cons, List.filterMap_cons]
    cases hp : parseSessionLine (jsTrim l) with
    | none => simp only [hp, Option.map_none']; rw [ih]
    | some parsed =>
      simp only [hp, Option.map_some']
      rw [ih]
      simp [stripId_mkSession]

/-- Under a failure oracle, the diagnostics are exactly the visited failing
cells, with 1-based coordinates, in visit order. -/
lemma visitfold_unparsed (bad : String → Bool) (uuid : Nat → String)
    (cells : List VisitedCell) (acc : WalkAcc) :
    (cells.foldl (visitStep (oraclePc bad uuid)) acc).unparsed
      = acc.unparsed ++ cells.filterMap
          (fun q => if bad q.content then some ⟨q.row + 1, q.col + 1, q.content⟩ else none) := by
  induction cells generalizing acc with
  | nil => simp
  | cons q qs ih =>
    rw [List.foldl_cons, List.filterMap_cons]
    cases hb : bad q.content with
    | true =>
      rw [show visitStep (oraclePc bad uuid) acc q
            = { acc with unparsed := acc.unparsed ++ [⟨q.row + 1, q.col + 1, q.content⟩] } by
        unfold visitStep oraclePc; rw [hb]; rfl]
      rw [ih]
      simp
    | false =>
      rw [show visitStep (oraclePc bad uuid) acc q
            = { acc with
                sessions := acc.sessions ++ (parseSessionCell uuid acc.counter q.content q.day q.time).1,
                counter := (parseSessionCell uuid acc.counter q.content q.day q.time).2 } by
        unfold visitStep oraclePc; rw [hb]; rfl]
      rw [ih]
      simp

/-- Under a failure oracle, the sessions (up to ids) are the concatenated
contributions of the visited non-failing cells, in visit order. -/
lemma visitfold_sessions (bad : String → Bool) (uuid : Nat → String)
    (cells : List VisitedCell) (acc : WalkAcc) :
    (cells.foldl (visitStep (oraclePc bad uuid)) acc).sessions.map stripId
      = acc.sessions.map stripId ++ cells.flatMap
          (fun q => if bad q.content then [] else cellSessionsNoId q.content q.day q.time) := by
  induction cells generalizing acc with
  | nil => simp
  | cons q qs ih =>
    rw [List.foldl_cons, List.flatMap_cons]
    cases hb : bad q.content with
    | true =>
      rw [show visitStep (oraclePc bad uuid) acc q
            = { acc with unparsed := acc.unparsed ++ [⟨q.row + 1, q.col + 1, q.content⟩] } by
        unfold visitStep oraclePc; rw [hb]; rfl]
      rw [ih]
      simp
    | false =>
      rw [show visitStep (oraclePc bad uuid) acc q
            = { acc with
                sessions := acc.sessions ++ (parseSessionCell uuid acc.counter q.content q.day q.time).1,
                counter := (parseSessionCell uuid acc.counter q.content q.day q.time).2 } by
        unfold visitStep oraclePc; rw [hb]; rfl]
      rw [ih]
      simp [parseSessionCell_strip]

/-- Each visited cell contributes at most one diagnostic. -/
lemma visitfold_unparsed_le (pc : CellParser) (cells : List VisitedCell) (acc : WalkAcc) :
    (cells.foldl (visitStep pc) acc).unparsed.length ≤ acc.unparsed.length + cells.length := by
  induction cells generalizing acc with
  | nil => simp
  | cons q qs ih =>
    rw [List.foldl_cons]
    refine le_trans (ih _) ?_
    unfold visitStep
    cases pc q.content q.day q.time acc.counter with
    | ok v => simp
    | error e => simp; omega

/-- Inverting a successful run: the header was found and the preview is the
assembled walk result. -/
lemma parseWorksheetGen_ok {pc : CellParser} {sh : Sheet} {p : ImportPreview}
    (e : parseWorksheetGen pc sh = .ok p) :
    ∃ hr tc, (headerScan sh).headerRow = some hr ∧ (headerScan sh).timeCol = some tc ∧
      p = assemblePreview sh pc hr tc := by
  unfold parseWorksheetGen at e
  dsimp only at e
  split at e
  · rename_i hr tc hhr htc
    refine ⟨hr, tc, hhr, htc, ?_⟩
    simp only [Except.ok.injEq] at e
    subst e
    unfold assemblePreview
    rw [walk_eq_dataCells]
  · exact absurd e (by simp)

/-! ## Header-scan characterizations and the remaining claims -/

/-- The weekday loop of a cell never touches `headerRow`/`timeCol`. -/
lemma dayfold_preserves_header (t : String) (c : Nat) (l : List String) (st : HeaderState) :
    ((l.foldl (fun s d => if containsSub t (jsLower d)
        then { s with dayCols := objAssign s.dayCols d c } else s) st).headerRow = st.headerRow ∧
     (l.foldl (fun s d => if containsSub t (jsLower d)
        then { s with dayCols := objAssign s.dayCols d c } else s) st).timeCol = st.timeCol) := by
  induction l generalizing st with
  | nil => exact ⟨rfl, rfl⟩
  | cons d ds ih =>
    rw [List.foldl_cons]
    refine ⟨?_, ?_⟩ <;>
    · rcases ih (if containsSub t (jsLower d)
        then { st with dayCols := objAssign st.dayCols d c } else st) with ⟨hh, ht⟩
      first
      | rw [hh] | rw [ht]
      split <;> rfl

/-- One header-scan cell's effect on `headerRow`/`timeCol`: a `time` cell
overwrites both (last match wins). -/
lemma scanHeaderCell_header (sh : Sheet) (r c : Nat) (st : HeaderState) :
    (scanHeaderCell sh r c st).headerRow
        = (if timeCell sh r c then some r else st.headerRow) ∧
    (scanHeaderCell sh r c st).timeCol
        = (if timeCell sh r c then some c else st.timeCol) := by
  unfold scanHeaderCell timeCell
  cases hc : sh.cell r c with
  | none => simp
  | some v =>
    dsimp only
    rcases dayfold_preserves_header (jsTrim (jsLower v)) c DAYS
      (if containsSub (jsTrim (jsLower v)) "time"
        then { st with headerRow := some r, timeCol := some c } else st) with ⟨hh, ht⟩
    rw [hh, ht]
    split <;> simp

/-- After scanning a row, the header is set iff it was set before or the row
has a `time` cell. -/
lemma colfold_header (sh : Sheet) (r : Nat) (cols : List Nat) (st : HeaderState) :
    ((cols.foldl (fun s c => scanHeaderCell sh r c s) st).headerRow.isSome
        = (st.headerRow.isSome || cols.any (fun c => timeCell sh r c))) ∧
    ((cols.foldl (fun s c => scanHeaderCell sh r c s) st).timeCol.isSome
        = (st.timeCol.isSome || cols.any (fun c => timeCell sh r c))) := by
  induction cols generalizing st with
  | nil => simp
  | cons c cs ih =>
    rw [List.foldl_cons, List.any_cons]
    rcases ih (scanHeaderCell sh r c st) with ⟨hh, ht⟩
    rw [hh, ht]
    rcases scanHeaderCell_header sh r c st with ⟨eh, et⟩
    rw [eh, et]
    constructor <;>
    · cases timeCell sh r c <;> simp [Bool.or_assoc, Bool.or_comm]

/-- After the row loop (early break included): the header is set iff some
scanned row has a `time` cell, and `timeCol` is set exactly when `headerRow`
is. -/
lemma rowsfold_header (sh : Sheet) (rows : List Nat) (st : HeaderState)
    (hsync : st.headerRow.isSome = st.timeCol.isSome) :
    ((scanHeaderRows sh rows st).headerRow.isSome
        = (st.headerRow.isSome
            || rows.any (fun r => (scanCols sh).any (fun c => timeCell sh r c)))) ∧
    ((scanHeaderRows sh rows st).timeCol.isSome
        = (scanHeaderRows sh rows st).headerRow.isSome) := by
  induction rows generalizing st with
  | nil => exact ⟨by simp [scanHeaderRows], by simp [scanHeaderRows, hsync]⟩
  | cons r rs ih =>
    rw [List.any_cons]
    unfold scanHeaderRows
    dsimp only
    have hrow := colfold_header sh r (scanCols sh) st
    have hh : (scanHeaderRow sh r st).headerRow.isSome
        = (st.headerRow.isSome || (scanCols sh).any (fun c => timeCell sh r c)) := by
      unfold scanHeaderRow; exact hrow.1
    have ht : (scanHeaderRow sh r st).timeCol.isSome
        = (st.timeCol.isSome || (scanCols sh).any (fun c => timeCell sh r c)) := by
      unfold scanHeaderRow; exact hrow.2
    have hsync' : (scanHeaderRow sh r st).headerRow.isSome
        = (scanHeaderRow sh r st).timeCol.isSome := by rw [hh, ht, hsync]
    split
    · rename_i hbreak
      simp only [Bool.and_eq_true] at hbreak
      refine ⟨?_, hsync'.symm⟩
      rw [← Bool.or_assoc, ← hh, hbreak.1]
      simp
    · rcases ih (scanHeaderRow sh r st) hsync' with ⟨ih1, ih2⟩
      refine ⟨?_, ih2⟩
      rw [ih1, hh, Bool.or_assoc]

/-- The header scan finds a header iff the scan region has a `time` cell. -/
lemma headerScan_isSome (sh : Sheet) :
    ((headerScan sh).headerRow.isSome
        = (windowRows sh).any (fun r => (scanCols sh).any (fun c => timeCell sh r c))) ∧
    ((headerScan sh).timeCol.isSome = (headerScan sh).headerRow.isSome) := by
  unfold headerScan
  simpa using rowsfold_header sh (windowRows sh) ⟨none, none, []⟩ rfl

/-- C6: the grid extractor fails — with the structure-error message — if and
only if no scanned cell (rows 0..10 of the sheet's range, all of its
columns) has text containing `time`; and the structure error is the only
error it ever produces.  In particular, when a `time` cell is present,
finding fewer than 3 weekday columns never by itself causes the failure, and
on failure no `ImportPreview` is produced. -/
theorem c6_structure_error (uuid : Nat → String) (sh : Sheet) :
    (parseWorksheet uuid sh = .error structureErrorMsg ↔
      ¬ ∃ r ∈ windowRows sh, ∃ c ∈ scanCols sh, timeCell sh r c = true) ∧
    (∀ msg, parseWorksheet uuid sh = .error msg → msg = structureErrorMsg) := by
  have hA := headerScan_isSome sh
  have hiff : ((windowRows sh).any (fun r => (scanCols sh).any (fun c => timeCell sh r c)) = true)
      ↔ ∃ r ∈ windowRows sh, ∃ c ∈ scanCols sh, timeCell sh r c = true := by
    simp [List.any_eq_true]
  unfold parseWorksheet parseWorksheetGen
  dsimp only
  cases hAny : (windowRows sh).any (fun r => (scanCols sh).any (fun c => timeCell sh r c)) with
  | true =>
    have h1 : (headerScan sh).headerRow.isSome = true := by rw [hA.1, hAny]
    have h2 : (headerScan sh).timeCol.isSome = true := by rw [hA.2]; exact h1
    obtain ⟨hr, hhr⟩ := Option.isSome_iff_exists.mp h1
    obtain ⟨tc, htc⟩ := Option.isSome_iff_exists.mp h2
    rw [hhr, htc]
    dsimp only
    refine ⟨⟨fun hcontra => absurd hcontra (by simp), fun hno => ?_⟩,
      fun msg hmsg => absurd hmsg (by simp)⟩
    exact absurd (hiff.mp hAny) hno
  | false =>
    have h1 : (headerScan sh).headerRow.isSome = false := by rw [hA.1, hAny]
    have hhr : (headerScan sh).headerRow = none := by
      cases hx : (headerScan sh).headerRow with
      | none => rfl
      | some v => rw [hx] at h1; simp at h1
    rw [hhr]
    dsimp only
    refine ⟨⟨fun _ => ?_, fun _ => rfl⟩, fun msg hmsg => ?_⟩
    · intro hex
      rw [← hiff] at hex
      rw [hex] at hAny
      simp at hAny
    · simpa using hmsg.symm

/-- Object assignment introduces no key outside `S`. -/
lemma objAssign_keys {m : List (String × Nat)} {k : String} {v : Nat} {S : List String}
    (hk : k ∈ S) (hm : ∀ x ∈ m, x.1 ∈ S) : ∀ x ∈ objAssign m k v, x.1 ∈ S := by
  intro x hx
  unfold objAssign at hx
  split at hx
  · rw [List.mem_map] at hx
    obtain ⟨y, hy, he⟩ := hx
    by_cases hyk : y.1 = k
    · rw [if_pos hyk] at he
      rw [← he]
      exact hk
    · rw [if_neg hyk] at he
      rw [← he]
      exact hm y hy
  · rw [List.mem_append] at hx
    rcases hx with hx | hx
    · exact hm x hx
    · simp at hx
      rw [hx]
      exact hk

/-- A scan step maps only weekday names. -/
lemma scanHeaderCell_keys {sh : Sheet} {r c : Nat} {st : HeaderState}
    (hm : ∀ x ∈ st.dayCols, x.1 ∈ DAYS) :
    ∀ x ∈ (scanHeaderCell sh r c st).dayCols, x.1 ∈ DAYS := by
  unfold scanHeaderCell
  cases hc : sh.cell r c with
  | none => exact hm
  | some v =>
    dsimp only
    have base : ∀ st' : HeaderState, (∀ x ∈ st'.dayCols, x.1 ∈ DAYS) →
        ∀ l : List String, (∀ d ∈ l, d ∈ DAYS) →
        ∀ x ∈ (l.foldl (fun s d => if containsSub (jsTrim (jsLower v)) (jsLower d)
            then { s with dayCols := objAssign s.dayCols d c } else s) st').dayCols, x.1 ∈ DAYS := by
      intro st' hst' l
      induction l generalizing st' with
      | nil => intro _; exact hst'
      | cons d ds ih =>
        intro hl
        rw [List.foldl_cons]
        refine ih ?_ ?_ (fun d hd => hl d (by simp [hd]))
        split
        · exact objAssign_keys (hl d (by simp)) hst'
        · exact hst'
    refine base _ ?_ DAYS (fun d hd => hd)
    split <;> exact hm

/-- Every key of the detected day-column map is a weekday name. -/
lemma headerScan_keys (sh : Sheet) : ∀ x ∈ (headerScan sh).dayCols, x.1 ∈ DAYS := by
  unfold headerScan
  have base : ∀ (rows : List Nat) (st : HeaderState), (∀ x ∈ st.dayCols, x.1 ∈ DAYS) →
      ∀ x ∈ (scanHeaderRows sh rows st).dayCols, x.1 ∈ DAYS := by
    intro rows
    induction rows with
    | nil => intro st hst; simpa [scanHeaderRows] using hst
    | cons r rs ih =>
      intro st hst
      unfold scanHeaderRows
      dsimp only
      have hrow : ∀ x ∈ (scanHeaderRow sh r st).dayCols, x.1 ∈ DAYS := by
        unfold scanHeaderRow
        have colbase : ∀ (cols : List Nat) (st' : HeaderState), (∀ x ∈ st'.dayCols, x.1 ∈ DAYS) →
            ∀ x ∈ (cols.foldl (fun s c => scanHeaderCell sh r c s) st').dayCols, x.1 ∈ DAYS := by
          intro cols
          induction cols with
          | nil => intro st' hst'; simpa using hst'
          | cons c cs ihc =>
            intro st' hst'
            rw [List.foldl_cons]
            exact ihc _ (scanHeaderCell_keys hst')
        exact colbase (scanCols sh) st hst
      split
      · exact hrow
      · exact ih _ hrow
  exact base (windowRows sh) ⟨none, none, []⟩ (by simp)

/-- Provenance of a visited cell: its day is a mapped day column's key and
its time is a successful `normalizeTime` output of its row's time cell. -/
lemma dataCells_mem {sh : Sheet} {dayCols : List (String × Nat)} {hr tc : Nat}
    {q : VisitedCell} (hq : q ∈ dataCells sh dayCols hr tc) :
    (∃ e ∈ dayCols, e.1 = q.day) ∧
    (∃ tv, sh.cell q.row tc = some tv ∧ normalizeTime tv = some q.time) := by
  unfold dataCells at hq
  rw [List.mem_flatMap] at hq
  obtain ⟨rt, hrt, hq⟩ := hq
  unfold rowCells at hq
  rw [List.mem_filterMap] at hq
  obtain ⟨e, he, heq⟩ := hq
  unfold dataRows at hrt
  rw [List.mem_filterMap] at hrt
  obtain ⟨r, _, hbind⟩ := hrt
  rw [Option.bind_eq_some] at hbind
  obtain ⟨tv, htv, hmap⟩ := hbind
  rw [Option.map_eq_some'] at hmap
  obtain ⟨ts, hts, hrt2⟩ := hmap
  cases hct : cellText sh rt.1 e.2 with
  | none => rw [hct] at heq; exact absurd heq (by simp)
  | some ct =>
    rw [hct] at heq
    rw [Option.map_eq_some'] at heq
    obtain ⟨ct', hct', hq2⟩ := heq
    simp only [Option.some.injEq] at hct'
    subst hct'
    subst hq2
    subst hrt2
    exact ⟨⟨e, he, rfl⟩, ⟨tv, htv, hts⟩⟩

/-- Every id-erased session of a cell is a `mkSession` of its day and time. -/
lemma cellSessionsNoId_mem {content day t : String} {s : Session}
    (hs : s ∈ cellSessionsNoId content day t) : ∃ p, s = mkSession "" day t p := by
  unfold cellSessionsNoId at hs
  rw [List.mem_filterMap] at hs
  obtain ⟨l, _, hl⟩ := hs
  rw [Option.map_eq_some'] at hl
  obtain ⟨p, _, hp⟩ := hl
  exact ⟨p, hp.symm⟩

/-- The engine is the oracle instance that never fails. -/
lemma real_eq_oracle (uuid : Nat → String) :
    realCellParser uuid = oraclePc (fun _ => false) uuid := rfl

/-- C9: every session of a returned preview has a recognized weekday, a
start time that is a non-null `normalizeTime` output (rows whose time failed
to normalize contribute no sessions), `duration_slots = 1`, empty `notes`,
and `attendance_marked = null`. -/
theorem c9_session_invariants (uuid : Nat → String) (sh : Sheet) (p : ImportPreview)
    (e : parseWorksheet uuid sh = .ok p) :
    ∀ s ∈ p.sessions, s.day ∈ DAYS ∧ (∃ t, normalizeTime t = some s.start_time) ∧
      s.duration_slots = 1 ∧ s.notes = "" ∧ s.attendance_marked = none := by
  intro s hs
  obtain ⟨hr, tc, hhr, htc, hp⟩ := parseWorksheetGen_ok e
  subst hp
  unfold assemblePreview at hs
  dsimp only at hs
  have hstrip : stripId s ∈ ((dataCells sh (headerScan sh).dayCols hr tc).foldl
      (visitStep (realCellParser uuid)) ⟨[], [], 0⟩).sessions.map stripId :=
    List.mem_map_of_mem _ hs
  rw [real_eq_oracle, visitfold_sessions] at hstrip
  simp only [List.map_nil, List.nil_append, if_false, Bool.false_eq_true] at hstrip
  rw [List.mem_flatMap] at hstrip
  obtain ⟨q, hq, hsq⟩ := hstrip
  obtain ⟨pp, hpp⟩ := cellSessionsNoId_mem hsq
  obtain ⟨⟨ed, hed, hday⟩, ⟨tv, _, htime⟩⟩ := dataCells_mem hq
  have hd : s.day = q.day := congrArg Session.day hpp
  have h1 : s.start_time = q.time := congrArg Session.start_time hpp
  have h2 : s.duration_slots = 1 := congrArg Session.duration_slots hpp
  have h3 : s.notes = "" := congrArg Session.notes hpp
  have h4 : s.attendance_marked = none := congrArg Session.attendance_marked hpp
  refine ⟨?_, ⟨tv, ?_⟩, h2, h3, h4⟩
  · rw [hd, ← hday]
    exact headerScan_keys sh ed hed
  · rw [h1]
    exact htime

/-- A `flatMap` of uniformly bounded lists is bounded by the product. -/
lemma length_flatMap_le {α β : Type} (l : List α) (g : α → List β) (K : Nat)
    (h : ∀ x ∈ l, (g x).length ≤ K) : (l.flatMap g).length ≤ l.length * K := by
  induction l with
  | nil => simp
  | cons x xs ih =>
    rw [List.flatMap_cons, List.length_append, List.length_cons]
    have h1 := h x (by simp)
    have h2 := ih (fun y hy => h y (by simp [hy]))
    calc (g x).length + (xs.flatMap g).length ≤ K + xs.length * K := by omega
      _ = (xs.length + 1) * K := by ring

/-- The walk visits at most `(lastRow − headerRow) · |dayCols|` cells. -/
lemma dataCells_length_le (sh : Sheet) (dayCols : List (String × Nat)) (hr tc : Nat) :
    (dataCells sh dayCols hr tc).length ≤ (sh.endRow - hr) * dayCols.length := by
  unfold dataCells
  have hrows : (dataRows sh hr tc).length ≤ sh.endRow - hr := by
    refine le_trans (List.length_filterMap_le _ _) ?_
    unfold interval
    rw [List.length_range']
    omega
  refine le_trans (length_flatMap_le _ _ dayCols.length
    (fun rt _ => List.length_filterMap_le _ _)) ?_
  exact Nat.mul_le_mul_right _ hrows

/-- C7 (amended): the engine is deterministic up to session ids — two runs
on an identical grid, with any two external id generators, produce the same
`ImportPreview` once session ids are erased (same sessions field-for-field
apart from `id`, same `unparsedCells`, same `metadata`); the ids themselves
come from the random `uuidv4()` and differ between runs. -/
theorem c7_deterministic_up_to_ids (u1 u2 : Nat → String) (sh : Sheet) :
    stripIds (parseWorksheet u1 sh) = stripIds (parseWorksheet u2 sh) := by
  unfold parseWorksheet parseWorksheetGen
  dsimp only
  split
  · rename_i hr tc hhr htc
    rw [walk_eq_dataCells, walk_eq_dataCells]
    unfold stripIds
    dsimp only
    rw [real_eq_oracle u1, real_eq_oracle u2]
    have hs : ((dataCells sh (headerScan sh).dayCols hr tc).foldl
          (visitStep (oraclePc (fun _ => false) u1)) ⟨[], [], 0⟩).sessions.map stripId
        = ((dataCells sh (headerScan sh).dayCols hr tc).foldl
          (visitStep (oraclePc (fun _ => false) u2)) ⟨[], [], 0⟩).sessions.map stripId := by
      rw [visitfold_sessions, visitfold_sessions]
    have hu : ((dataCells sh (headerScan sh).dayCols hr tc).foldl
          (visitStep (oraclePc (fun _ => false) u1)) ⟨[], [], 0⟩).unparsed
        = ((dataCells sh (headerScan sh).dayCols hr tc).foldl
          (visitStep (oraclePc (fun _ => false) u2)) ⟨[], [], 0⟩).unparsed := by
      rw [visitfold_unparsed, visitfold_unparsed]
    rw [hs, hu]
  · rfl

/-- C4: the aggregate confidence is the ratio mapping applied to
`parsedCells / max(totalCells, 1)` (rationally: ratio ≥ 4/5 → high,
≥ 3/5 → medium, else low), where
`totalCells = (lastDataRow − headerRow) × numberOfDayColumns` counts every
row below the header (also rows whose time failed to normalize), and
`parsedCells = totalCells − unparsedCells.length` — the subtraction never
underflows since each visited cell contributes at most one diagnostic — and
`totalCells = 0` yields confidence low with no division error. -/
theorem c4_aggregate_confidence (pc : CellParser) (sh : Sheet) (p : ImportPreview)
    (e : parseWorksheetGen pc sh = .ok p) :
    ∃ hr, (headerScan sh).headerRow = some hr ∧
      p.metadata.totalCells = (sh.endRow - hr) * (headerScan sh).dayCols.length ∧
      p.unparsedCells.length ≤ p.metadata.totalCells ∧
      p.metadata.parsedCells = p.metadata.totalCells - p.unparsedCells.length ∧
      p.metadata.confidence =
        (if 5 * p.metadata.parsedCells ≥ 4 * max p.metadata.totalCells 1 then Conf.high
         else if 5 * p.metadata.parsedCells ≥ 3 * max p.metadata.totalCells 1 then Conf.medium
         else Conf.low) ∧
      (p.metadata.totalCells = 0 → p.metadata.confidence = Conf.low) := by
  obtain ⟨hr, tc, hhr, htc, hp⟩ := parseWorksheetGen_ok e
  subst hp
  refine ⟨hr, hhr, rfl, ?_, rfl, rfl, ?_⟩
  · -- the diagnostics count is bounded by the totalCells product
    unfold assemblePreview
    dsimp only
    refine le_trans (visitfold_unparsed_le _ _ _) ?_
    simp only [List.length_nil, Nat.zero_add]
    exact dataCells_length_le sh (headerScan sh).dayCols hr tc
  · -- totalCells = 0 forces confidence low
    intro h0
    unfold assemblePreview at h0 ⊢
    dsimp only at h0 ⊢
    rw [h0]
    simp [calculateConfidence]

/-- C5: under a failure oracle (an unexpected error thrown while parsing the
lines of any cell whose content satisfies `bad`), the diagnostics are
exactly one `UnparsedCell` per visited failing cell, carrying its 1-based
row and column and its raw (trimmed) text, in visit order; and the sessions
are exactly the contributions of the other visited cells — a failing cell
contributes none of its lines, and every non-failing cell is still
processed. -/
theorem c5_cell_failure (bad : String → Bool) (uuid : Nat → String) (sh : Sheet)
    (p : ImportPreview) (e : parseWorksheetOracle bad uuid sh = .ok p)
    (hr tc : Nat) (hhr : (headerScan sh).headerRow = some hr)
    (htc : (headerScan sh).timeCol = some tc) :
    p.unparsedCells = (dataCells sh (headerScan sh).dayCols hr tc).filterMap
        (fun q => if bad q.content then some ⟨q.row + 1, q.col + 1, q.content⟩ else none) ∧
    p.sessions.map stripId = (dataCells sh (headerScan sh).dayCols hr tc).flatMap
        (fun q => if bad q.content then [] else cellSessionsNoId q.content q.day q.time) := by
  obtain ⟨hr', tc', hhr', htc', hp⟩ := parseWorksheetGen_ok e
  rw [hhr] at hhr'
  rw [htc] at htc'
  simp only [Option.some.injEq] at hhr' htc'
  subst hhr'
  subst htc'
  subst hp
  unfold assemblePreview
  dsimp only
  constructor
  · rw [visitfold_unparsed]
    simp
  · rw [visitfold_sessions]
    simp

/-- One row of the sheet-locator scan qualifies iff the row has a `time`
cell in the window and at least 3 window cells containing some weekday
name. -/
lemma rowQualifies_iff (sh : Sheet) (r : Nat) :
    rowQualifies sh r = (rowHasTime sh r && decide (rowDayCellCount sh r ≥ 3)) := by
  unfold rowQualifies rowHasTime rowDayCellCount
  dsimp only
  suffices h : ∀ (cols : List Nat) (acc : Bool × Nat),
      cols.foldl (fun (acc : Bool × Nat) c =>
        match sh.cell r c with
        | none => acc
        | some v =>
          (acc.1 || containsSub (jsTrim (jsLower v)) "time",
           if DAYS.any (fun d => containsSub (jsTrim (jsLower v)) (jsLower d))
             then acc.2 + 1 else acc.2)) acc
        = (acc.1 || cols.any (fun c => timeCell sh r c),
           acc.2 + (cols.filter (fun c => dayCell sh r c)).length) by
    rw [h]
    simp
  intro cols
  induction cols with
  | nil => intro acc; simp
  | cons c cs ih =>
    intro acc
    rw [List.foldl_cons, List.any_cons, List.filter_cons, ih]
    cases hc : sh.cell r c with
    | none =>
      have ht : timeCell sh r c = false := by simp [timeCell, hc]
      have hd : dayCell sh r c = false := by simp [dayCell, hc]
      rw [ht, hd]
      simp
    | some v =>
      have ht : timeCell sh r c = containsSub (jsTrim (jsLower v)) "time" := by
        simp [timeCell, hc]
      have hd : dayCell sh r c
          = DAYS.any (fun d => containsSub (jsTrim (jsLower v)) (jsLower d)) := by
        simp [dayCell, hc]
      rw [ht, hd]
      dsimp only
      cases DAYS.any (fun d => containsSub (jsTrim (jsLower v)) (jsLower d)) <;>
        · simp [Bool.or_assoc]
          try omega

/-- C2 (amended): on a non-empty workbook the locator always returns a sheet
name; it returns the first sheet (in workbook order) having a **single row**
within the 11×11 window that both contains a `time` cell and has at least 3
cells each containing some weekday name (cells counted individually, not
distinct weekdays), and the first sheet's name when no sheet qualifies. -/
theorem c2_locator (wb : List (String × Sheet)) (hne : wb ≠ []) :
    (findTimetableSheet wb).isSome ∧
    findTimetableSheet wb =
      (((wb.find? (fun pr => (windowRows pr.2).any
          (fun r => rowHasTime pr.2 r && decide (rowDayCellCount pr.2 r ≥ 3)))).map (·.1)).orElse
        (fun _ => wb.head?.map (·.1))) := by
  have hfun : (fun pr : String × Sheet => (windowRows pr.2).any (fun r => rowQualifies pr.2 r))
      = (fun pr : String × Sheet => (windowRows pr.2).any
          (fun r => rowHasTime pr.2 r && decide (rowDayCellCount pr.2 r ≥ 3))) := by
    funext pr
    congr 1
    funext r
    exact rowQualifies_iff pr.2 r
  unfold findTimetableSheet
  rw [hfun]
  cases hf : wb.find? (fun pr => (windowRows pr.2).any
      (fun r => rowHasTime pr.2 r && decide (rowDayCellCount pr.2 r ≥ 3))) with
  | some pr => exact ⟨by simp, by simp [Option.orElse]⟩
  | none =>
    refine ⟨?_, by simp [Option.orElse]⟩
    cases wb with
    | nil => exact absurd rfl hne
    | cons x xs => simp

/-- The header scan only reads cells of the scanned rows. -/
lemma scanHeaderRows_congr (sh1 sh2 : Sheet) (hC : scanCols sh1 = scanCols sh2)
    (L : List Nat) (hcell : ∀ r ∈ L, ∀ c ∈ scanCols sh1, sh1.cell r c = sh2.cell r c) :
    ∀ st, scanHeaderRows sh1 L st = scanHeaderRows sh2 L st := by
  induction L with
  | nil => intro st; rfl
  | cons r rs ih =>
    intro st
    have hrow : scanHeaderRow sh1 r st = scanHeaderRow sh2 r st := by
      unfold scanHeaderRow
      rw [← hC]
      apply List.foldl_ext
      intro a c hc
      unfold scanHeaderCell
      rw [hcell r (by simp) c hc]
    unfold scanHeaderRows
    dsimp only
    rw [hrow]
    split
    · rfl
    · exact ih (fun r' hr' c hc => hcell r' (by simp [hr']) c hc) _

/-- C8 (amended): header-row, time-column and weekday-column detection reads
only cells in rows `startRow..min(endRow, startRow+10)` — but across the
sheet's **full** column extent, not an 11-column window: two sheets with
equal ranges agreeing on every cell of that row band get identical detection
results. -/
theorem c8_row_window (sh1 sh2 : Sheet)
    (h1 : sh1.startRow = sh2.startRow) (h2 : sh1.startCol = sh2.startCol)
    (h3 : sh1.endRow = sh2.endRow) (h4 : sh1.endCol = sh2.endCol)
    (hcell : ∀ r ∈ windowRows sh1, ∀ c ∈ scanCols sh1, sh1.cell r c = sh2.cell r c) :
    headerScan sh1 = headerScan sh2 := by
  have hC : scanCols sh1 = scanCols sh2 := by unfold scanCols; rw [h2, h4]
  have hW : windowRows sh1 = windowRows sh2 := by unfold windowRows; rw [h1, h3]
  unfold headerScan
  rw [← hW]
  exact scanHeaderRows_congr sh1 sh2 hC (windowRows sh1) hcell _

/-! ## C10 and the concrete witnesses -/

set_option maxHeartbeats 4000000 in
/-- C10: `normalizeTime` is idempotent on canonical output — for every
already-canonical zero-padded `HH:MM` string (hour 00–23, minutes 00–59,
written `pad2 h ++ ":" ++ pad2 m`), normalizing returns it unchanged. -/
theorem c10_idempotent : ∀ h : Nat, h < 24 → ∀ m : Nat, m < 60 →
    normalizeTime (pad2 h ++ ":" ++ pad2 m) = some (pad2 h ++ ":" ++ pad2 m) := by
  decide

/-- C10's witness at 09:05. -/
theorem c10_idempotent_witness :
    normalizeTime (pad2 9 ++ ":" ++ pad2 5) = some (pad2 9 ++ ":" ++ pad2 5) :=
  c10_idempotent 9 (by decide) 5 (by decide)

/-- C2's witness: the amended locator characterization at a concrete
workbook. -/
theorem c2_locator_witness :
    (findTimetableSheet [("S1", shJunk), ("S2", shSplit)]).isSome ∧
    findTimetableSheet [("S1", shJunk), ("S2", shSplit)] =
      ((([("S1", shJunk), ("S2", shSplit)].find? (fun pr => (windowRows pr.2).any
          (fun r => rowHasTime pr.2 r && decide (rowDayCellCount pr.2 r ≥ 3)))).map (·.1)).orElse
        (fun _ => [("S1", shJunk), ("S2", shSplit)].head?.map (·.1))) :=
  c2_locator [("S1", shJunk), ("S2", shSplit)] (List.cons_ne_nil _ _)

/-- C4's witness: the metadata equations at a concrete run. -/
theorem c4_aggregate_confidence_witness :
    ∃ hr, (headerScan shMain).headerRow = some hr ∧
      pMain.metadata.totalCells = (shMain.endRow - hr) * (headerScan shMain).dayCols.length ∧
      pMain.unparsedCells.length ≤ pMain.metadata.totalCells ∧
      pMain.metadata.parsedCells = pMain.metadata.totalCells - pMain.unparsedCells.length ∧
      pMain.metadata.confidence =
        (if 5 * pMain.metadata.parsedCells ≥ 4 * max pMain.metadata.totalCells 1 then Conf.high
         else if 5 * pMain.metadata.parsedCells ≥ 3 * max pMain.metadata.totalCells 1
           then Conf.medium
         else Conf.low) ∧
      (pMain.metadata.totalCells = 0 → pMain.metadata.confidence = Conf.low) :=
  c4_aggregate_confidence (realCellParser uuidRunA) shMain pMain rfl

/-- C5's witness: the oracle run on `shMain` where the `Math` cell throws. -/
theorem c5_cell_failure_witness :
    pOracle.unparsedCells = (dataCells shMain (headerScan shMain).dayCols 0 0).filterMap
        (fun q => if badMath q.content then some ⟨q.row + 1, q.col + 1, q.content⟩ else none) ∧
    pOracle.sessions.map stripId = (dataCells shMain (headerScan shMain).dayCols 0 0).flatMap
        (fun q => if badMath q.content then [] else cellSessionsNoId q.content q.day q.time) :=
  c5_cell_failure badMath uuidRunA shMain pOracle rfl 0 0 rfl rfl

/-- C8's witness: two concrete sheets differing only at row 12 get the same
detection result. -/
theorem c8_row_window_witness : headerScan shDeepA = headerScan shDeepB :=
  c8_row_window shDeepA shDeepB rfl rfl rfl rfl (by decide)

/-- C9's witness: the invariants at the concrete session `shMain` yields. -/
theorem c9_session_invariants_witness :
    sMain.day ∈ DAYS ∧ (∃ t, normalizeTime t = some sMain.start_time) ∧
      sMain.duration_slots = 1 ∧ sMain.notes = "" ∧ sMain.attendance_marked = none :=
  c9_session_invariants uuidRunA shMain pMain rfl sMain (by decide)

end ExcelParser
